import Mathlib

/-!
Verification of the fresh-store library (`mod.ts`): a Subject/Observer
`Store` with copy-on-read / copy-on-write discipline via `structuredClone`,
a pointer-keyed registry `StoreStack`, and the `useStore` facade.

The development has two layers:

* A heap model (`Val`, `Heap`, `structuredClone`, `view`) for the claims
  about aliasing and deep cloning (`Store.state` getter, `Store.set`,
  the `Store` constructor).  JavaScript objects are heap cells holding a
  list of field values; a value is a primitive or a reference to a cell.
  Heaps are append-only for allocation, and mutation of an object is an
  in-place update of its cell.  Heaps are kept down-closed (a cell only
  references earlier cells), which models acyclic structured data.
* A pure model (`Store`, `StoreStack`, `useStore`) for the claims about
  observers, registry policy and the facade, where the state payload is
  an opaque value of type `σ` (the clone performed by `set` is invisible
  at that level of abstraction and is treated by the heap model).
-/

namespace FreshStoreSpec

/-! ## Heap model of structured values and `structuredClone` -/

/-- A JavaScript value: a primitive, or a reference to a heap object. -/
inductive Val where
  | prim (n : Nat) : Val
  | ref (a : Nat) : Val
deriving DecidableEq, Repr

/-- A heap object: its list of field values. -/
abbrev Obj := List Val

/-- The heap: cell `a` is `h[a]`; allocation appends at the end. -/
abbrev Heap := List Obj

/-- Read the object stored at address `a` (absent cells read as empty). -/
def getObj (h : Heap) (a : Nat) : Obj := h.getD a []

/-- `valOk v n`: every reference in `v` points below `n`. -/
def valOk : Val → Nat → Prop
  | .prim _, _ => True
  | .ref a, n => a < n

instance valOk.dec : (v : Val) → (n : Nat) → Decidable (valOk v n)
  | .prim _, _ => isTrue trivial
  | .ref a, n => Nat.decLt a n

/-- `valOkR v lo hi`: every reference in `v` lies in the region `[lo, hi)`. -/
def valOkR : Val → Nat → Nat → Prop
  | .prim _, _, _ => True
  | .ref a, lo, hi => lo ≤ a ∧ a < hi

instance valOkR.dec : (v : Val) → (lo hi : Nat) → Decidable (valOkR v lo hi)
  | .prim _, _, _ => isTrue trivial
  | .ref _, _, _ => instDecidableAnd

/-- All fields of an object point below `n`. -/
def objOk (o : Obj) (n : Nat) : Prop := ∀ v ∈ o, valOk v n

/-- Down-closed heap: the object at address `i` only references cells below
`i`.  This is the invariant maintained by allocation of acyclic structured
values (children are allocated before their parents). -/
def heapWF (h : Heap) : Prop := ∀ i, i < h.length → objOk (getObj h i) i

/-- The region `[lo, h.length)` of `h` is self-contained: all its cells
reference only addresses inside that same region. -/
def freshRegion (h : Heap) (lo : Nat) : Prop :=
  ∀ i, i < h.length → lo ≤ i → ∀ v ∈ getObj h i, valOkR v lo h.length

/-- `h` and `h'` store the same objects at every address below `n`. -/
def agreeBelow (h h' : Heap) (n : Nat) : Prop :=
  ∀ a, a < n → getObj h a = getObj h' a

/-- `h'` extends `h`: it was obtained from `h` by allocations only. -/
def heapExt (h h' : Heap) : Prop := ∃ e, h' = h ++ e

instance objOk.dec (o : Obj) (n : Nat) : Decidable (objOk o n) :=
  inferInstanceAs (Decidable (∀ v ∈ o, valOk v n))

instance heapWF.dec (h : Heap) : Decidable (heapWF h) :=
  inferInstanceAs (Decidable (∀ i, i < h.length → objOk (getObj h i) i))

instance freshRegion.dec (h : Heap) (lo : Nat) : Decidable (freshRegion h lo) :=
  inferInstanceAs
    (Decidable (∀ i, i < h.length → lo ≤ i → ∀ v ∈ getObj h i, valOkR v lo h.length))

instance agreeBelow.dec (h h' : Heap) (n : Nat) : Decidable (agreeBelow h h' n) :=
  inferInstanceAs (Decidable (∀ a, a < n → getObj h a = getObj h' a))

/-- The pure shape of a structured value, used to compare states across
heaps: what an external program can observe of a value by traversal. -/
inductive Shape where
  | prim (n : Nat) : Shape
  | node (children : List Shape) : Shape

/-- Fueled traversal of a value into its observable `Shape`.  On a
down-closed heap, fuel `n` is enough for any value that is `valOk n`. -/
def view (h : Heap) : Nat → Val → Shape
  | 0 => fun v =>
    match v with
    | .prim n => .prim n
    | .ref _ => .node []
  | fuel + 1 => fun v =>
    match v with
    | .prim n => .prim n
    | .ref a => .node ((getObj h a).map (view h fuel))

/-- Clone a list of field values in order, threading the target heap
through (`cl` clones one value). -/
def cloneList (cl : Val → Heap → Heap × Val) : List Val → Heap → Heap × List Val
  | [], h => (h, [])
  | v :: vs, h =>
    let p := cl v h
    let q := cloneList cl vs p.1
    (q.1, p.2 :: q.2)

/-- Fueled deep clone of a value read from `src`, allocating the copies at
the end of the target heap `h`.  Children are cloned (and allocated)
before their parent, so cloning preserves down-closedness.  In every use
below the target heap initially is `src` itself and only grows, so
reading fields from `src` agrees with the live heap. -/
def cloneVal (src : Heap) : Nat → Val → Heap → Heap × Val
  | 0 => fun v h =>
    match v with
    | .prim n => (h, .prim n)
    | .ref _ => (h, .prim 0)
  | fuel + 1 => fun v h =>
    match v with
    | .prim n => (h, .prim n)
    | .ref a =>
      let q := cloneList (cloneVal src fuel) (getObj src a) h
      (q.1 ++ [q.2], .ref q.1.length)

/-- `structuredClone` on a down-closed heap: deep copy of `v`, allocated
at the end of `h`.  Fuel `h.length` suffices for any `valOk h.length`
value on a down-closed heap. -/
def structuredClone (h : Heap) (v : Val) : Heap × Val :=
  cloneVal h h.length v h

/-! Store operations of the heap model.  The store's internal `#state` is
a single `Val`; the operations below are the direct translations of the
`state` getter (line 106), the constructor (lines 111-113) and the two
forms of `set` (lines 161-169) of `mod.ts` (observer notification is
treated in the pure model). -/

/-- `get state()` — `return structuredClone(this.#state)`. -/
def stateGet (h : Heap) (st : Val) : Heap × Val := structuredClone h st

/-- `constructor(state)` — `this.#state = state`: the argument is stored
as the internal state as-is, with no clone and no allocation. -/
def storeNew (h : Heap) (v : Val) : Heap × Val := (h, v)

/-- Value form of `set` — `this.#state = structuredClone(options)`. -/
def setValue (h : Heap) (v : Val) : Heap × Val := structuredClone h v

/-- Function form of `set` —
`this.#state = structuredClone(options(structuredClone(this.state)))`.
The updater `F` is an arbitrary heap-transforming function: it receives
the (doubly cloned) previous state and may mutate the heap and return any
value. -/
def setUpdater (h : Heap) (st : Val) (F : Heap → Val → Heap × Val) : Heap × Val :=
  let p₁ := stateGet h st
  let p₂ := structuredClone p₁.1 p₁.2
  let pr := F p₂.1 p₂.2
  structuredClone pr.1 pr.2

/-! ## Basic lemmas about the heap model -/

theorem getObj_append_lt (h e : Heap) (a : Nat) (ha : a < h.length) :
    getObj (h ++ e) a = getObj h a :=
  List.getD_append h e [] a ha

theorem getObj_append_len (h : Heap) (o : Obj) (e : Heap) :
    getObj (h ++ o :: e) h.length = o := by
  unfold getObj
  rw [List.getD_append_right h (o :: e) [] h.length (Nat.le_refl _)]
  simp

theorem getObj_big (h : Heap) (a : Nat) (ha : h.length ≤ a) : getObj h a = [] :=
  List.getD_eq_default _ _ ha

theorem valOk_mono {v : Val} {m n : Nat} (hv : valOk v m) (hmn : m ≤ n) : valOk v n := by
  cases v with
  | prim k => trivial
  | ref a => exact Nat.lt_of_lt_of_le hv hmn

theorem valOkR_mono {v : Val} {lo hi lo' hi' : Nat} (hv : valOkR v lo hi)
    (hlo : lo' ≤ lo) (hhi : hi ≤ hi') : valOkR v lo' hi' := by
  cases v with
  | prim k => trivial
  | ref a => exact ⟨Nat.le_trans hlo hv.1, Nat.lt_of_lt_of_le hv.2 hhi⟩

theorem valOkR_valOk {v : Val} {lo hi : Nat} (hv : valOkR v lo hi) : valOk v hi := by
  cases v with
  | prim k => trivial
  | ref a => exact hv.2

theorem objOk_mono {o : Obj} {m n : Nat} (ho : objOk o m) (hmn : m ≤ n) : objOk o n :=
  fun v hv => valOk_mono (ho v hv) hmn

theorem heapWF_getObj {h : Heap} (hw : heapWF h) (i : Nat) : objOk (getObj h i) i := by
  by_cases hi : i < h.length
  · exact hw i hi
  · rw [getObj_big h i (Nat.le_of_not_lt hi)]
    intro v hv
    cases hv

theorem heapExt_refl (h : Heap) : heapExt h h := ⟨[], by simp⟩

theorem heapExt_append (h e : Heap) : heapExt h (h ++ e) := ⟨e, rfl⟩

theorem heapExt_trans {h₁ h₂ h₃ : Heap} (a : heapExt h₁ h₂) (b : heapExt h₂ h₃) :
    heapExt h₁ h₃ := by
  obtain ⟨e, rfl⟩ := a
  obtain ⟨f, rfl⟩ := b
  exact ⟨e ++ f, by simp⟩

theorem heapExt_length {h h' : Heap} (a : heapExt h h') : h.length ≤ h'.length := by
  obtain ⟨e, rfl⟩ := a
  simp

theorem heapExt_getObj {h h' : Heap} (a : heapExt h h') {i : Nat} (hi : i < h.length) :
    getObj h' i = getObj h i := by
  obtain ⟨e, rfl⟩ := a
  exact getObj_append_lt h e i hi

theorem heapExt_agree {h h' : Heap} (a : heapExt h h') {n : Nat} (hn : n ≤ h.length) :
    agreeBelow h' h n :=
  fun i hi => @heapExt_getObj h h' a i (Nat.lt_of_lt_of_le hi hn)

theorem agreeBelow_mono {h h' : Heap} {n m : Nat} (ha : agreeBelow h h' n) (hm : m ≤ n) :
    agreeBelow h h' m :=
  fun a haa => ha a (Nat.lt_of_lt_of_le haa hm)

theorem agreeBelow_trans {h₁ h₂ h₃ : Heap} {n : Nat} (a : agreeBelow h₁ h₂ n)
    (b : agreeBelow h₂ h₃ n) : agreeBelow h₁ h₃ n :=
  fun i hi => (a i hi).trans (b i hi)

theorem agreeBelow_symm {h h' : Heap} {n : Nat} (a : agreeBelow h h' n) : agreeBelow h' h n :=
  fun i hi => (a i hi).symm

/-! ## Lemmas about `view` -/

@[simp] theorem view_prim (h : Heap) (fuel n : Nat) : view h fuel (.prim n) = .prim n := by
  cases fuel <;> rfl

@[simp] theorem view_zero_ref (h : Heap) (a : Nat) : view h 0 (.ref a) = .node [] := rfl

@[simp] theorem view_succ_ref (h : Heap) (fuel : Nat) (a : Nat) :
    view h (fuel + 1) (.ref a) = .node ((getObj h a).map (view h fuel)) := rfl

/-- Congruence: the view of a value only depends on the heap cells below a
bound covering the value, provided the reference heap is down-closed. -/
theorem view_agree {h h' : Heap} {n : Nat} (hwf : heapWF h) (hag : agreeBelow h' h n) :
    ∀ (fuel : Nat) (v : Val), valOk v n → view h' fuel v = view h fuel v := by
  intro fuel
  induction fuel with
  | zero =>
    intro v hv
    cases v <;> rfl
  | succ k ih =>
    intro v hv
    cases v with
    | prim m => rfl
    | ref a =>
      have ha : a < n := hv
      simp only [view_succ_ref, hag a ha]
      congr 1
      apply List.map_congr_left
      intro w hw
      exact ih w (valOk_mono (heapWF_getObj hwf a w hw) (Nat.le_of_lt ha))

/-- On a down-closed heap, any fuel at least a covering bound of the value
computes the same view. -/
theorem view_fuel_inv {h : Heap} (hwf : heapWF h) :
    ∀ (n : Nat) (v : Val), valOk v n →
      ∀ f₁ f₂, n ≤ f₁ → n ≤ f₂ → view h f₁ v = view h f₂ v := by
  intro n
  induction n using Nat.strong_induction_on with
  | _ n ih =>
    intro v hv f₁ f₂ hf₁ hf₂
    cases v with
    | prim m => simp
    | ref a =>
      have ha : a < n := hv
      obtain ⟨k₁, rfl⟩ : ∃ k, f₁ = k + 1 := ⟨f₁ - 1, by omega⟩
      obtain ⟨k₂, rfl⟩ : ∃ k, f₂ = k + 1 := ⟨f₂ - 1, by omega⟩
      simp only [view_succ_ref]
      congr 1
      apply List.map_congr_left
      intro w hw
      exact ih a ha w (heapWF_getObj hwf a w hw) k₁ k₂ (by omega) (by omega)

/-- Two adjacent self-contained regions form a self-contained region. -/
theorem freshRegion_compose {h₁ h₂ : Heap} {lo : Nat} (hlo : lo ≤ h₁.length)
    (f₁ : freshRegion h₁ lo) (hext : heapExt h₁ h₂) (f₂ : freshRegion h₂ h₁.length) :
    freshRegion h₂ lo := by
  intro i hi hloi v hv
  by_cases hcase : i < h₁.length
  · rw [heapExt_getObj hext hcase] at hv
    exact valOkR_mono (f₁ i hcase hloi v hv) (Nat.le_refl _) (heapExt_length hext)
  · exact valOkR_mono (f₂ i hi (Nat.le_of_not_lt hcase) v hv) hlo (Nat.le_refl _)

/-! ## Correctness of the clone -/

@[simp] theorem cloneVal_prim (src : Heap) (fuel n : Nat) (h : Heap) :
    cloneVal src fuel (.prim n) h = (h, .prim n) := by
  cases fuel <;> rfl

theorem cloneVal_succ_ref (src : Heap) (fuel a : Nat) (h : Heap) :
    cloneVal src (fuel + 1) (.ref a) h =
      ((cloneList (cloneVal src fuel) (getObj src a) h).1
        ++ [(cloneList (cloneVal src fuel) (getObj src a) h).2],
       .ref (cloneList (cloneVal src fuel) (getObj src a) h).1.length) := rfl

@[simp] theorem cloneList_nil (cl : Val → Heap → Heap × Val) (h : Heap) :
    cloneList cl [] h = (h, []) := rfl

theorem cloneList_cons (cl : Val → Heap → Heap × Val) (v : Val) (vs : List Val) (h : Heap) :
    cloneList cl (v :: vs) h =
      ((cloneList cl vs (cl v h).1).1, (cl v h).2 :: (cloneList cl vs (cl v h).1).2) := rfl

/-- Main lemma about `cloneVal`: for a value covered by bound `n` on a
down-closed source heap, and any sufficient fuel, the clone only appends
to the target heap, preserves down-closedness, returns a value whose
references lie entirely in the freshly allocated region (which is
self-contained), and has the same observable shape as the original. -/
theorem cloneVal_spec {src : Heap} (hsrc : heapWF src) :
    ∀ (n : Nat) (v : Val) (fuel : Nat) (h : Heap),
      valOk v n → n ≤ fuel → n ≤ src.length → heapWF h →
      heapExt h (cloneVal src fuel v h).1
      ∧ heapWF (cloneVal src fuel v h).1
      ∧ valOkR (cloneVal src fuel v h).2 h.length (cloneVal src fuel v h).1.length
      ∧ freshRegion (cloneVal src fuel v h).1 h.length
      ∧ (∀ f, n ≤ f →
          view (cloneVal src fuel v h).1 f (cloneVal src fuel v h).2 = view src f v) := by
  intro n
  induction n using Nat.strong_induction_on with
  | _ n ih =>
    intro v fuel h hv hnf hns hwh
    cases v with
    | prim m =>
      refine ⟨?_, ?_, ?_, ?_, ?_⟩ <;> simp only [cloneVal_prim]
      · exact heapExt_refl h
      · exact hwh
      · exact trivial
      · intro i hi hlo w hw
        exact absurd (Nat.lt_of_lt_of_le hi hlo) (Nat.lt_irrefl i)
      · intro f hf
        simp
    | ref a =>
      have ha : a < n := hv
      obtain ⟨k, rfl⟩ : ∃ k, fuel = k + 1 := ⟨fuel - 1, by omega⟩
      have hak : a ≤ k := by omega
      have has : a ≤ src.length := by omega
      have hfields : objOk (getObj src a) a := heapWF_getObj hsrc a
      have LS : ∀ (vs : List Val) (h₀ : Heap), (∀ w ∈ vs, valOk w a) → heapWF h₀ →
          heapExt h₀ (cloneList (cloneVal src k) vs h₀).1
          ∧ heapWF (cloneList (cloneVal src k) vs h₀).1
          ∧ (∀ c ∈ (cloneList (cloneVal src k) vs h₀).2,
              valOkR c h₀.length (cloneList (cloneVal src k) vs h₀).1.length)
          ∧ freshRegion (cloneList (cloneVal src k) vs h₀).1 h₀.length
          ∧ (∀ f, a ≤ f →
              ((cloneList (cloneVal src k) vs h₀).2).map
                  (view (cloneList (cloneVal src k) vs h₀).1 f)
                = vs.map (view src f)) := by
        intro vs
        induction vs with
        | nil =>
          intro h₀ hws hw₀
          refine ⟨heapExt_refl h₀, hw₀, ?_, ?_, ?_⟩
          · intro c hc
            exact absurd hc (List.not_mem_nil c)
          · intro i hi hlo w hw
            exact absurd (Nat.lt_of_lt_of_le hi hlo) (Nat.lt_irrefl i)
          · intro f hf
            rfl
        | cons w ws ihl =>
          intro h₀ hws hw₀
          have hw : valOk w a := hws w (by simp)
          have hrest : ∀ u ∈ ws, valOk u a := fun u hu => hws u (by simp [hu])
          obtain ⟨E₁, W₁, R₁, F₁, V₁⟩ := ih a ha w k h₀ hw hak has hw₀
          obtain ⟨E₂, W₂, R₂, F₂, V₂⟩ := ihl (cloneVal src k w h₀).1 hrest W₁
          rw [cloneList_cons]
          refine ⟨heapExt_trans E₁ E₂, W₂, ?_, ?_, ?_⟩
          · intro c hc
            rcases List.mem_cons.mp hc with hc | hc
            · subst hc
              exact valOkR_mono R₁ (Nat.le_refl _) (heapExt_length E₂)
            · exact valOkR_mono (R₂ c hc) (heapExt_length E₁) (Nat.le_refl _)
          · exact freshRegion_compose (heapExt_length E₁) F₁ E₂ F₂
          · intro f hf
            simp only [List.map_cons]
            have step1 :
                view (cloneList (cloneVal src k) ws (cloneVal src k w h₀).1).1 f
                    (cloneVal src k w h₀).2
                  = view (cloneVal src k w h₀).1 f (cloneVal src k w h₀).2 :=
              view_agree W₁ (heapExt_agree E₂ (Nat.le_refl _)) f _ (valOkR_valOk R₁)
            rw [step1, V₁ f hf, V₂ f hf]
      obtain ⟨E, W, R, F, V⟩ := LS (getObj src a) h hfields hwh
      rw [cloneVal_succ_ref]
      set qq := cloneList (cloneVal src k) (getObj src a) h with hqq
      have hlen : (qq.1 ++ [qq.2]).length = qq.1.length + 1 := by simp
      refine ⟨?_, ?_, ?_, ?_, ?_⟩
      · exact heapExt_trans E (heapExt_append qq.1 [qq.2])
      · intro i hi
        rw [hlen] at hi
        by_cases hilt : i < qq.1.length
        · rw [getObj_append_lt qq.1 [qq.2] i hilt]
          exact W i hilt
        · have hieq : i = qq.1.length := by omega
          subst hieq
          rw [getObj_append_len qq.1 qq.2 []]
          intro c hc
          exact valOkR_valOk (R c hc)
      · exact ⟨heapExt_length E, by rw [hlen]; omega⟩
      · intro i hi hlo c hc
        rw [hlen] at hi
        by_cases hilt : i < qq.1.length
        · rw [getObj_append_lt qq.1 [qq.2] i hilt] at hc
          exact valOkR_mono (F i hilt hlo c hc) (Nat.le_refl _) (by rw [hlen]; omega)
        · have hieq : i = qq.1.length := by omega
          subst hieq
          rw [getObj_append_len qq.1 qq.2 []] at hc
          exact valOkR_mono (R c hc) (Nat.le_refl _) (by rw [hlen]; omega)
      · intro f hf
        obtain ⟨m, rfl⟩ : ∃ m, f = m + 1 := ⟨f - 1, by omega⟩
        have hm : a ≤ m := by omega
        simp only [view_succ_ref]
        rw [getObj_append_len qq.1 qq.2 []]
        congr 1
        have step1 : qq.2.map (view (qq.1 ++ [qq.2]) m) = qq.2.map (view qq.1 m) := by
          apply List.map_congr_left
          intro c hc
          exact view_agree W (heapExt_agree (heapExt_append qq.1 [qq.2]) (Nat.le_refl _))
            m c (valOkR_valOk (R c hc))
        rw [step1]
        exact V m hm

/-- `structuredClone` contract: only appends to the heap, preserves
down-closedness, and returns a value of the same shape whose references
all lie in the self-contained freshly allocated region. -/
theorem structuredClone_spec {h : Heap} {v : Val} (hwf : heapWF h) (hok : valOk v h.length) :
    heapExt h (structuredClone h v).1
    ∧ heapWF (structuredClone h v).1
    ∧ valOkR (structuredClone h v).2 h.length (structuredClone h v).1.length
    ∧ freshRegion (structuredClone h v).1 h.length
    ∧ (∀ f, h.length ≤ f →
        view (structuredClone h v).1 f (structuredClone h v).2 = view h f v) :=
  cloneVal_spec hwf h.length v h.length h hok (Nat.le_refl _) (Nat.le_refl _) hwf

/-- Allocations never change the view of an existing value. -/
theorem heapExt_view {h h' : Heap} (hwf : heapWF h) (he : heapExt h h') :
    ∀ (fuel : Nat) (w : Val), valOk w h.length → view h' fuel w = view h fuel w :=
  fun fuel w hw => view_agree hwf (heapExt_agree he (Nat.le_refl _)) fuel w hw

/-! ## Claim C1 -/

/-- Claim C1: a read of `s.state` returns a deep clone, structurally
disconnected from the store's internal representation.  In the scenario
below the store internally holds `st` on heap `h`; two successive reads
of `state` produce copies `c₁` (heap grows to `h₁`) and `c₂` (heap grows
to `h₂`).  An arbitrary mutation of the object returned by the second
read — any rewrite `h₃` of the heap touching only addresses at or above
`h₁.length`, which by the freshness conjunct is where all of `c₂`'s
structure lives — changes neither the view of the internal value `st`,
nor the view of the previously returned copy `c₁`, nor the result of any
subsequent read of `state`. -/
theorem C1_state_isolation
    (h : Heap) (st : Val) (hwf : heapWF h) (hok : valOk st h.length)
    (h₁ : Heap) (c₁ : Val) (e₁ : stateGet h st = (h₁, c₁))
    (h₂ : Heap) (c₂ : Val) (e₂ : stateGet h₁ st = (h₂, c₂))
    (h₃ : Heap) (hmut : agreeBelow h₃ h₂ h₁.length)
    (hlen : h₂.length ≤ h₃.length) (hwf₃ : heapWF h₃) :
    (view h₂ h₂.length c₂ = view h h.length st
      ∧ valOkR c₂ h₁.length h₂.length
      ∧ freshRegion h₂ h₁.length)
    ∧ (∀ fuel, view h₃ fuel st = view h fuel st)
    ∧ (∀ fuel, view h₃ fuel c₁ = view h₁ fuel c₁)
    ∧ view (stateGet h₃ st).1 (stateGet h₃ st).1.length (stateGet h₃ st).2
        = view h h.length st := by
  have e₁' : structuredClone h st = (h₁, c₁) := e₁
  have e₂' : structuredClone h₁ st = (h₂, c₂) := e₂
  obtain ⟨E₁, W₁, R₁, F₁, V₁⟩ := structuredClone_spec hwf hok
  rw [e₁'] at E₁ W₁ R₁ F₁ V₁
  have E₁ : heapExt h h₁ := E₁
  have W₁ : heapWF h₁ := W₁
  have R₁ : valOkR c₁ h.length h₁.length := R₁
  have V₁ : ∀ f, h.length ≤ f → view h₁ f c₁ = view h f st := V₁
  have hok₁ : valOk st h₁.length := valOk_mono hok (heapExt_length E₁)
  obtain ⟨E₂, W₂, R₂, F₂, V₂⟩ := structuredClone_spec W₁ hok₁
  rw [e₂'] at E₂ W₂ R₂ F₂ V₂
  have E₂ : heapExt h₁ h₂ := E₂
  have W₂ : heapWF h₂ := W₂
  have R₂ : valOkR c₂ h₁.length h₂.length := R₂
  have F₂ : freshRegion h₂ h₁.length := F₂
  have V₂ : ∀ f, h₁.length ≤ f → view h₂ f c₂ = view h₁ f st := V₂
  have hh₁ : h.length ≤ h₁.length := heapExt_length E₁
  have hh₂ : h₁.length ≤ h₂.length := heapExt_length E₂
  -- mutating only the fresh region of `c₂` preserves the view of the internal value
  have internal : ∀ fuel, view h₃ fuel st = view h fuel st := by
    intro fuel
    have step1 : view h₃ fuel st = view h₂ fuel st :=
      view_agree W₂ (agreeBelow_mono hmut hh₁) fuel st hok
    have step2 : view h₂ fuel st = view h fuel st :=
      heapExt_view hwf (heapExt_trans E₁ E₂) fuel st hok
    exact step1.trans step2
  refine ⟨⟨?_, R₂, F₂⟩, internal, ?_, ?_⟩
  · have step1 : view h₂ h₂.length c₂ = view h₁ h₂.length st := V₂ h₂.length hh₂
    have step2 : view h₁ h₂.length st = view h h₂.length st :=
      heapExt_view hwf E₁ h₂.length st hok
    have step3 : view h h₂.length st = view h h.length st :=
      view_fuel_inv hwf h.length st hok h₂.length h.length
        (Nat.le_trans hh₁ hh₂) (Nat.le_refl _)
    exact (step1.trans step2).trans step3
  · intro fuel
    have step1 : view h₃ fuel c₁ = view h₂ fuel c₁ :=
      view_agree W₂ hmut fuel c₁ (valOkR_valOk R₁)
    have step2 : view h₂ fuel c₁ = view h₁ fuel c₁ :=
      heapExt_view W₁ E₂ fuel c₁ (valOkR_valOk R₁)
    exact step1.trans step2
  · have hok₃ : valOk st h₃.length :=
      valOk_mono hok (Nat.le_trans (Nat.le_trans hh₁ hh₂) hlen)
    obtain ⟨E₃, W₃, R₃, F₃, V₃⟩ := structuredClone_spec hwf₃ hok₃
    have hf₃ : h₃.length ≤ (structuredClone h₃ st).1.length := heapExt_length E₃
    have step1 :
        view (structuredClone h₃ st).1 (structuredClone h₃ st).1.length
            (structuredClone h₃ st).2
          = view h₃ (structuredClone h₃ st).1.length st := V₃ _ hf₃
    have step2 : view h₃ (structuredClone h₃ st).1.length st
        = view h (structuredClone h₃ st).1.length st := internal _
    have step3 : view h (structuredClone h₃ st).1.length st = view h h.length st :=
      view_fuel_inv hwf h.length st hok _ h.length
        (Nat.le_trans (Nat.le_trans (Nat.le_trans hh₁ hh₂) hlen) hf₃) (Nat.le_refl _)
    exact (step1.trans step2).trans step3

/-- Concrete instance of C1: heap with one object `[5]`, state a
reference to it; two reads, then a mutation of the second copy's cell;
the internal value's view is unchanged. -/
theorem C1_state_isolation_witness :
    agreeBelow [[Val.prim 5], [Val.prim 5], [Val.prim 9]]
        [[Val.prim 5], [Val.prim 5], [Val.prim 5]] 2
    ∧ view [[Val.prim 5], [Val.prim 5], [Val.prim 9]] 3 (Val.ref 0)
        = view [[Val.prim 5]] 3 (Val.ref 0) :=
  ⟨by decide,
    (C1_state_isolation [[Val.prim 5]] (Val.ref 0) (by decide) (by decide)
      [[Val.prim 5], [Val.prim 5]] (Val.ref 1) rfl
      [[Val.prim 5], [Val.prim 5], [Val.prim 5]] (Val.ref 2) rfl
      [[Val.prim 5], [Val.prim 5], [Val.prim 9]] (by decide) (by decide)
      (by decide)).2.1 3⟩

/-! ## Claim C2 -/

/-- Claim C2: `s.set(v)` followed by `s.set(prev => f(prev))` yields a
final state equal to `f(v)`; the updater receives an isolated deep copy
of the current state, so mutations it performs on its argument corrupt
neither `v`, nor the internal state, nor any prior snapshot, and the
value the updater returns is itself deep-copied before being stored.

The first `set` stores `st₁` (a clone of `v`) and grows the heap to
`h₁`; a snapshot `c₀` is read; then the updater form runs from `hs`:
`stateGet` produces `snap`, a second clone produces the argument `prev`,
the updater `F` runs, and its result `r` is cloned into the stored
state.  `F` is an arbitrary heap function constrained exactly by what a
JavaScript updater can do with its argument: it writes only at or above
`hA.length` (everything reachable from `prev` lives there), may
allocate, keeps values acyclic, and computes `g` of its argument's
shape. -/
theorem C2_copy_on_write
    (h : Heap) (v : Val) (hwf : heapWF h) (hokv : valOk v h.length)
    (h₁ : Heap) (st₁ : Val) (e₁ : setValue h v = (h₁, st₁))
    (hs : Heap) (c₀ : Val) (es : stateGet h₁ st₁ = (hs, c₀))
    (hA : Heap) (snap : Val) (eA : stateGet hs st₁ = (hA, snap))
    (hB : Heap) (prev : Val) (eB : structuredClone hA snap = (hB, prev))
    (F : Heap → Val → Heap × Val) (g : Shape → Shape)
    (hC : Heap) (r : Val) (eC : F hB prev = (hC, r))
    (hFframe : agreeBelow hC hB hA.length)
    (hFwf : heapWF hC)
    (hFok : valOk r hC.length)
    (hFval : view hC hC.length r = g (view hB hB.length prev)) :
    (view (setUpdater hs st₁ F).1 (setUpdater hs st₁ F).1.length (setUpdater hs st₁ F).2
        = g (view h h.length v))
    ∧ view hB hB.length prev = view h h.length v
    ∧ (∀ fuel, view hC fuel v = view h fuel v)
    ∧ (∀ fuel, view hC fuel st₁ = view h₁ fuel st₁)
    ∧ (∀ fuel, view hC fuel c₀ = view hs fuel c₀)
    ∧ valOkR (setUpdater hs st₁ F).2 hC.length (setUpdater hs st₁ F).1.length := by
  have eq : setUpdater hs st₁ F = structuredClone hC r := by
    simp only [setUpdater, eA, eB, eC]
  have e₁' : structuredClone h v = (h₁, st₁) := e₁
  obtain ⟨E₁, W₁, R₁, F₁, V₁⟩ := structuredClone_spec hwf hokv
  rw [e₁'] at E₁ W₁ R₁ F₁ V₁
  have E₁ : heapExt h h₁ := E₁
  have W₁ : heapWF h₁ := W₁
  have R₁ : valOkR st₁ h.length h₁.length := R₁
  have V₁ : ∀ f, h.length ≤ f → view h₁ f st₁ = view h f v := V₁
  have hok₁ : valOk st₁ h₁.length := valOkR_valOk R₁
  have es' : structuredClone h₁ st₁ = (hs, c₀) := es
  obtain ⟨Es, Ws, Rs, Fs, Vs⟩ := structuredClone_spec W₁ hok₁
  rw [es'] at Es Ws Rs Fs Vs
  have Es : heapExt h₁ hs := Es
  have Ws : heapWF hs := Ws
  have Rs : valOkR c₀ h₁.length hs.length := Rs
  have Vs : ∀ f, h₁.length ≤ f → view hs f c₀ = view h₁ f st₁ := Vs
  have hoks : valOk st₁ hs.length := valOk_mono hok₁ (heapExt_length Es)
  have eA' : structuredClone hs st₁ = (hA, snap) := eA
  obtain ⟨Ea, Wa, Ra, Fa, Va⟩ := structuredClone_spec Ws hoks
  rw [eA'] at Ea Wa Ra Fa Va
  have Ea : heapExt hs hA := Ea
  have Wa : heapWF hA := Wa
  have Ra : valOkR snap hs.length hA.length := Ra
  have Va : ∀ f, hs.length ≤ f → view hA f snap = view hs f st₁ := Va
  obtain ⟨Eb, Wb, Rb, Fb, Vb⟩ := structuredClone_spec Wa (valOkR_valOk Ra)
  rw [eB] at Eb Wb Rb Fb Vb
  have Eb : heapExt hA hB := Eb
  have Wb : heapWF hB := Wb
  have Rb : valOkR prev hA.length hB.length := Rb
  have Vb : ∀ f, hA.length ≤ f → view hB f prev = view hA f snap := Vb
  have l₀₁ : h.length ≤ h₁.length := heapExt_length E₁
  have l₁s : h₁.length ≤ hs.length := heapExt_length Es
  have lsA : hs.length ≤ hA.length := heapExt_length Ea
  have lAB : hA.length ≤ hB.length := heapExt_length Eb
  -- the updater's argument has exactly the shape of the state set by `set(v)`
  have prevShape : view hB hB.length prev = view h h.length v := by
    have s1 : view hB hB.length prev = view hA hB.length snap := Vb hB.length lAB
    have s2 : view hA hB.length snap = view hs hB.length st₁ :=
      Va hB.length (Nat.le_trans lsA lAB)
    have s3 : view hs hB.length st₁ = view h₁ hB.length st₁ :=
      heapExt_view W₁ Es hB.length st₁ hok₁
    have s4 : view h₁ hB.length st₁ = view h hB.length v :=
      V₁ hB.length (by omega)
    have s5 : view h hB.length v = view h h.length v :=
      view_fuel_inv hwf h.length v hokv hB.length h.length (by omega) (Nat.le_refl _)
    exact (((s1.trans s2).trans s3).trans s4).trans s5
  -- mutations by the updater stay at or above hA.length ≥ h.length
  have hExthB : heapExt h hB := heapExt_trans E₁ (heapExt_trans Es (heapExt_trans Ea Eb))
  have vSafe : ∀ fuel, view hC fuel v = view h fuel v := by
    intro fuel
    have s1 : view hC fuel v = view hB fuel v :=
      view_agree Wb (agreeBelow_mono hFframe (by omega)) fuel v hokv
    have s2 : view hB fuel v = view h fuel v := heapExt_view hwf hExthB fuel v hokv
    exact s1.trans s2
  have stSafe : ∀ fuel, view hC fuel st₁ = view h₁ fuel st₁ := by
    intro fuel
    have s1 : view hC fuel st₁ = view hB fuel st₁ :=
      view_agree Wb (agreeBelow_mono hFframe (by omega)) fuel st₁ hok₁
    have s2 : view hB fuel st₁ = view h₁ fuel st₁ :=
      heapExt_view W₁ (heapExt_trans Es (heapExt_trans Ea Eb)) fuel st₁ hok₁
    exact s1.trans s2
  have snapSafe : ∀ fuel, view hC fuel c₀ = view hs fuel c₀ := by
    intro fuel
    have hc₀ : valOk c₀ hs.length := valOkR_valOk Rs
    have s1 : view hC fuel c₀ = view hB fuel c₀ :=
      view_agree Wb (agreeBelow_mono hFframe lsA) fuel c₀ hc₀
    have s2 : view hB fuel c₀ = view hs fuel c₀ :=
      heapExt_view Ws (heapExt_trans Ea Eb) fuel c₀ hc₀
    exact s1.trans s2
  obtain ⟨Ef, Wf, Rf, Ff, Vf⟩ := structuredClone_spec hFwf hFok
  rw [eq]
  refine ⟨?_, prevShape, vSafe, stSafe, snapSafe, Rf⟩
  have lCf : hC.length ≤ (structuredClone hC r).1.length := heapExt_length Ef
  have s1 : view (structuredClone hC r).1 (structuredClone hC r).1.length
      (structuredClone hC r).2 = view hC (structuredClone hC r).1.length r := Vf _ lCf
  have s2 : view hC (structuredClone hC r).1.length r = view hC hC.length r :=
    view_fuel_inv hFwf hC.length r hFok _ hC.length lCf (Nat.le_refl _)
  rw [s1, s2, hFval, prevShape]

/-- Concrete instance of C2: heap `[[3]]`, value a reference to the
object, constant updater returning the primitive `42`. -/
theorem C2_copy_on_write_witness :
    valOk (Val.ref 0) ([[Val.prim 3]] : Heap).length
    ∧ view (setUpdater [[Val.prim 3], [Val.prim 3], [Val.prim 3]] (Val.ref 1)
          (fun hh _ => (hh, Val.prim 42))).1
        (setUpdater [[Val.prim 3], [Val.prim 3], [Val.prim 3]] (Val.ref 1)
          (fun hh _ => (hh, Val.prim 42))).1.length
        (setUpdater [[Val.prim 3], [Val.prim 3], [Val.prim 3]] (Val.ref 1)
          (fun hh _ => (hh, Val.prim 42))).2
      = Shape.prim 42 :=
  ⟨by decide,
    (C2_copy_on_write [[Val.prim 3]] (Val.ref 0) (by decide) (by decide)
      [[Val.prim 3], [Val.prim 3]] (Val.ref 1) rfl
      [[Val.prim 3], [Val.prim 3], [Val.prim 3]] (Val.ref 2) rfl
      [[Val.prim 3], [Val.prim 3], [Val.prim 3], [Val.prim 3]] (Val.ref 3) rfl
      [[Val.prim 3], [Val.prim 3], [Val.prim 3], [Val.prim 3], [Val.prim 3]] (Val.ref 4) rfl
      (fun hh _ => (hh, Val.prim 42)) (fun _ => Shape.prim 42)
      [[Val.prim 3], [Val.prim 3], [Val.prim 3], [Val.prim 3], [Val.prim 3]] (Val.prim 42) rfl
      (by decide) (by decide) (by decide) rfl).1⟩

/-! ## Pure model: errors, observers, `Store`, `StoreStack`, `useStore`

State payloads are opaque values of a type `σ`; observers are compared
by identity, modeled as a numeric identity token (JavaScript compares
object instances; distinct instances get distinct tokens).  An
observer's `update` is observable through the notification trace (the
list of invoked identities in order); `raises` tells whether its
`update` throws.  Thrown exceptions and `console.error` output are
reified in result values: an `error` component `some e` models the
operation terminating by throwing `e` (mutations already performed
persist, as they do on the in-place JavaScript structures), and a `log`
component models the emitted console messages. -/

/-- The four error classes of `mod.ts`. -/
inductive StoreError where
  | duplicateObserver
  | unknownObserver
  | memoryAllocation
  | nullPointer
deriving DecidableEq, Repr

/-- An observer: an identity token and whether its `update` throws. -/
structure Observer where
  id : Nat
  raises : Bool
deriving DecidableEq, Repr

/-- A store: one state value and the attached observers in order. -/
structure Store (σ : Type) where
  state : σ
  observers : List Observer

/-- `new Store(state)` — observers start empty, state stored as given. -/
def Store.init {σ : Type} (state : σ) : Store σ :=
  { state := state, observers := [] }

/-- `attach(observer)`: if already present (by identity) throw
`DuplicateObserverError` (no mutation), else push. -/
def Store.attach {σ : Type} (s : Store σ) (o : Observer) : Store σ × Option StoreError :=
  if o ∈ s.observers then (s, some .duplicateObserver)
  else ({ s with observers := s.observers ++ [o] }, none)

/-- One pass of `notify()`'s loop over a list of observers: returns the
identities invoked, in order, and whether an exception escaped (in which
case the remaining observers were not visited). -/
def notifyList : List Observer → List Nat × Bool
  | [] => ([], false)
  | o :: rest =>
    if o.raises then ([o.id], true)
    else
      let r := notifyList rest
      (o.id :: r.1, r.2)

/-- `notify()` — invokes `update` on every attached observer in
attachment order, fail-fast on an exception. -/
def Store.notify {σ : Type} (s : Store σ) : List Nat × Bool := notifyList s.observers

/-- Value form of `set`: replace the state, then run `notify()`
synchronously before returning.  The result carries the notification
trace produced before `set` returned. -/
def Store.set {σ : Type} (s : Store σ) (v : σ) : Store σ × List Nat × Bool :=
  let s' := { s with state := v }
  (s', Store.notify s')

/-- A pointer: an opaque string key. -/
abbrev Pointer := String

/-- The registry: a pointer-keyed association list (keys unique). -/
abbrev StoreStack (σ : Type) := List (Pointer × Store σ)

/-- `this.#stores[ptr]` read: the store at `p`, or absent. -/
def StoreStack.get {σ : Type} : StoreStack σ → Pointer → Option (Store σ)
  | [], _ => none
  | e :: rest, p => if e.1 = p then some e.2 else StoreStack.get rest p

/-- `this.#stores[ptr] = s` write: bind (or rebind) `p` to `s`. -/
def StoreStack.setPtr {σ : Type} : StoreStack σ → Pointer → Store σ → StoreStack σ
  | [], p, s => [(p, s)]
  | e :: rest, p, s => if e.1 = p then (p, s) :: rest else e :: StoreStack.setPtr rest p s

/-- `delete this.#stores[ptr]`. -/
def StoreStack.del {σ : Type} : StoreStack σ → Pointer → StoreStack σ
  | [], _ => []
  | e :: rest, p => if e.1 = p then StoreStack.del rest p else e :: StoreStack.del rest p

/-- Result of a registry operation: console output, the registry
afterwards, and the exception that escaped, if any. -/
structure StackResult (σ : Type) where
  log : List String
  stores : StoreStack σ
  error : Option StoreError

/-- `addStore(newItem)` — binds a freshly generated pointer (modeled as
the extra argument `freshPtr`, the value `crypto.randomUUID()` returned)
and returns it. -/
def StoreStack.addStore {σ : Type} (reg : StoreStack σ) (newItem : Store σ)
    (freshPtr : Pointer) : Pointer × StoreStack σ :=
  (freshPtr, StoreStack.setPtr reg freshPtr newItem)

/-- `addStoreAtPointer(newItem, pointer, {override?, verbose?})` — on an
allocated pointer without `override`, logs when `verbose` and throws
`MemoryAllocationError` leaving the registry untouched; otherwise binds
the pointer. -/
def StoreStack.addStoreAtPointer {σ : Type} (reg : StoreStack σ) (newItem : Store σ)
    (p : Pointer) (override verbose : Bool) : StackResult σ :=
  if (StoreStack.get reg p).isSome && !override then
    { log := if verbose then
        ["Error: Cannot add store at pointer, address is already allocated."] else []
      stores := reg
      error := some .memoryAllocation }
  else
    { log := [], stores := StoreStack.setPtr reg p newItem, error := none }

/-- The attach loop of `upsert`: attach each observer in order to the
store at `p`, fail-fast (the `try`/`catch` in the source rethrows
immediately).  Mutations made before the failing attach persist. -/
def StoreStack.attachAll {σ : Type} (reg : StoreStack σ) (p : Pointer) :
    List Observer → StoreStack σ × Option StoreError
  | [] => (reg, none)
  | o :: os =>
    match StoreStack.get reg p with
    | none => (reg, none)
    | some s =>
      match Store.attach s o with
      | (_, some e) => (reg, some e)
      | (s', none) => StoreStack.attachAll (StoreStack.setPtr reg p s') p os

/-- `upsert(defaultValue, pointer, ...observers)` — create the store
with `defaultValue` only if the pointer is unallocated, then attach the
observers. -/
def StoreStack.upsert {σ : Type} (reg : StoreStack σ) (defaultValue : σ) (p : Pointer)
    (observers : List Observer) : StoreStack σ × Option StoreError :=
  let reg₁ :=
    if (StoreStack.get reg p).isNone then StoreStack.setPtr reg p (Store.init defaultValue)
    else reg
  StoreStack.attachAll reg₁ p observers

/-- `removeStore(ptr, {verbose?})` — delete the binding; on an
unallocated pointer, log when `verbose` and throw `NullPointerError`
leaving the registry untouched. -/
def StoreStack.removeStore {σ : Type} (reg : StoreStack σ) (p : Pointer)
    (verbose : Bool) : StackResult σ :=
  if (StoreStack.get reg p).isNone then
    { log := if verbose then
        ["Error: The pointer address points to unallocated memory."] else []
      stores := reg
      error := some .nullPointer }
  else
    { log := [], stores := StoreStack.del reg p, error := none }

/-- `errorHandling` of `StoreOptions`. -/
structure ErrorHandlingOptions where
  verbose : Option Bool
  stopOnError : Option Bool

/-- `StoreOptions` (the `onChange` callback itself is not modeled — only
the synthesized observer wrapping it, whose behavior the claims never
observe beyond its identity). -/
structure StoreOptions where
  pointer : Option Pointer
  observers : Option (List Observer)
  override : Option Bool
  errorHandling : Option ErrorHandlingOptions

/-- Outcome of a `useStore` call.  `pointer` is the resolved pointer the
source would `return`; `error = some e` models the call terminating by
rethrowing `e` instead of returning; `observersAfter` is the content,
after the call, of the observers array `useStore` worked on — the
caller's own array when one was supplied in the options. -/
structure UseStoreResult (σ : Type) where
  pointer : Pointer
  stores : StoreStack σ
  log : List String
  observersAfter : List Observer
  error : Option StoreError

/-- The per-observer attach loop of `useStore`'s `override` path: each
failure logs when `verbose` and either rethrows (`stopOnError`) or is
swallowed, continuing with the next observer. -/
def attachLoop {σ : Type} (s : Store σ) (verbose stopOnError : Bool) :
    List Observer → Store σ × List String × Option StoreError
  | [] => (s, [], none)
  | o :: os =>
    match Store.attach s o with
    | (_, some e) =>
      let lg := if verbose then ["console.error: DuplicateObserverError"] else []
      if stopOnError then (s, lg, some e)
      else
        let rest := attachLoop s verbose stopOnError os
        (rest.1, lg ++ rest.2.1, rest.2.2)
    | (s', none) => attachLoop s' verbose stopOnError os

/-- `useStore(state, options?)`.  The fresh values the source draws from
`crypto.randomUUID()` and from `new StoreObserver()` are passed
explicitly: `freshPtr` is the pointer that would be generated if none is
supplied, `freshObsId` the identity of the synthesized observer instance
wrapping `onChange`. -/
def useStore {σ : Type} (state : σ) (options : Option StoreOptions) (freshPtr : Pointer)
    (freshObsId : Nat) (reg : StoreStack σ) : UseStoreResult σ :=
  match options with
  | none =>
    let r := StoreStack.addStore reg (Store.init state) freshPtr
    { pointer := r.1, stores := r.2, log := [], observersAfter := [], error := none }
  | some opts =>
    let pointer := opts.pointer.getD freshPtr
    let observers := opts.observers.getD [] ++ [{ id := freshObsId, raises := false }]
    let override := opts.override.getD false
    let verbose := (opts.errorHandling.map fun eh => eh.verbose.getD false).getD false
    let stopOnError := (opts.errorHandling.map fun eh => eh.stopOnError.getD false).getD false
    if override then
      let r := attachLoop (Store.init state) verbose stopOnError observers
      match r.2.2 with
      | some e =>
        { pointer := pointer, stores := reg, log := r.2.1
          observersAfter := observers, error := some e }
      | none =>
        let ar := StoreStack.addStoreAtPointer reg r.1 pointer true false
        { pointer := pointer, stores := ar.stores, log := r.2.1
          observersAfter := observers, error := none }
    else
      match StoreStack.upsert reg state pointer observers with
      | (reg', some e) =>
        let lg := if verbose then ["console.error: DuplicateObserverError"] else []
        if stopOnError then
          { pointer := pointer, stores := reg', log := lg
            observersAfter := observers, error := some e }
        else
          { pointer := pointer, stores := reg', log := lg
            observersAfter := observers, error := none }
      | (reg', none) =>
        { pointer := pointer, stores := reg', log := []
          observersAfter := observers, error := none }

/-! ## Registry lemmas -/

theorem get_setPtr_same {σ : Type} (reg : StoreStack σ) (p : Pointer) (s : Store σ) :
    StoreStack.get (StoreStack.setPtr reg p s) p = some s := by
  induction reg with
  | nil => simp [StoreStack.setPtr, StoreStack.get]
  | cons e rest ih =>
    by_cases he : e.1 = p
    · simp [StoreStack.setPtr, he, StoreStack.get]
    · simp [StoreStack.setPtr, he, StoreStack.get, ih]

theorem get_del_same {σ : Type} (reg : StoreStack σ) (p : Pointer) :
    StoreStack.get (StoreStack.del reg p) p = none := by
  induction reg with
  | nil => simp [StoreStack.del, StoreStack.get]
  | cons e rest ih =>
    by_cases he : e.1 = p
    · simp [StoreStack.del, he, ih]
    · simp [StoreStack.del, he, StoreStack.get, ih]

/-- Attaching observers never changes the state held by the store at the
pointer. -/
theorem attachAll_state {σ : Type} (os : List Observer) :
    ∀ (reg : StoreStack σ) (p : Pointer) (s : Store σ),
      StoreStack.get reg p = some s →
      ∃ s', StoreStack.get (StoreStack.attachAll reg p os).1 p = some s'
        ∧ s'.state = s.state := by
  induction os with
  | nil =>
    intro reg p s h
    exact ⟨s, h, rfl⟩
  | cons o os ih =>
    intro reg p s h
    simp only [StoreStack.attachAll, h]
    by_cases hmem : o ∈ s.observers
    · simp only [Store.attach, if_pos hmem]
      exact ⟨s, h, rfl⟩
    · simp only [Store.attach, if_neg hmem]
      have hget := get_setPtr_same reg p { s with observers := s.observers ++ [o] }
      obtain ⟨s', hs', hstate⟩ := ih _ p _ hget
      exact ⟨s', hs', hstate⟩

/-! ## Claim C3 -/

/-- Claim C3: `set` invokes `update` exactly once on each attached
observer, in attachment order, synchronously before `set` returns (the
trace is part of `set`'s result); if an observer's `update` raises, the
exception propagates and observers not yet visited are not notified. -/
theorem C3_notification_order {σ : Type} (s : Store σ) (o₁ o₂ o₃ : Observer) (v : σ)
    (hobs : s.observers = [o₁, o₂, o₃]) :
    (o₁.raises = false → o₂.raises = false → o₃.raises = false →
      (Store.set s v).2 = ([o₁.id, o₂.id, o₃.id], false))
    ∧ (o₁.raises = false → o₂.raises = true →
      (Store.set s v).2 = ([o₁.id, o₂.id], true)) := by
  constructor
  · intro h₁ h₂ h₃
    simp [Store.set, Store.notify, hobs, notifyList, h₁, h₂, h₃]
  · intro h₁ h₂
    simp [Store.set, Store.notify, hobs, notifyList, h₁, h₂]

/-- Concrete instance of C3: three observers notified in order; when the
second raises, the third is not visited and the exception escapes. -/
theorem C3_notification_order_witness :
    (Store.set { state := 0, observers := [⟨1, false⟩, ⟨2, false⟩, ⟨3, false⟩] } (5 : Nat)).2
        = ([1, 2, 3], false)
    ∧ (Store.set { state := 0, observers := [⟨1, false⟩, ⟨2, true⟩, ⟨3, false⟩] } (5 : Nat)).2
        = ([1, 2], true) :=
  ⟨(C3_notification_order _ ⟨1, false⟩ ⟨2, false⟩ ⟨3, false⟩ 5 rfl).1 rfl rfl rfl,
   (C3_notification_order _ ⟨1, false⟩ ⟨2, true⟩ ⟨3, false⟩ 5 rfl).2 rfl rfl⟩

/-! ## Claim C4 -/

/-- Claim C4: attaching an observer already present (by identity) fails
with `DuplicateObserverError` and performs no mutation — the store, and
in particular its observer count, is unchanged. -/
theorem C4_duplicate_attach {σ : Type} (s : Store σ) (o : Observer)
    (hmem : o ∈ s.observers) :
    Store.attach s o = (s, some .duplicateObserver)
    ∧ (Store.attach s o).1.observers.length = s.observers.length := by
  simp [Store.attach, hmem]

/-- Concrete instance of C4. -/
theorem C4_duplicate_attach_witness :
    Store.attach { state := (0 : Nat), observers := [⟨1, false⟩] } ⟨1, false⟩
      = ({ state := 0, observers := [⟨1, false⟩] }, some .duplicateObserver) :=
  (C4_duplicate_attach { state := (0 : Nat), observers := [⟨1, false⟩] } ⟨1, false⟩
    (by simp)).1

/-! ## Claim C5 -/

/-- Claim C5: `addStoreAtPointer` on an allocated pointer without
`override` fails with `MemoryAllocationError`, leaves the registry — in
particular the store `s₁` at `p` — untouched, and emits a diagnostic
when `verbose`; the same call with `override` succeeds and replaces `s₁`
with `s₂`. -/
theorem C5_collision_policy {σ : Type} (reg : StoreStack σ) (p : Pointer)
    (s₁ s₂ : Store σ) (verbose : Bool) (halloc : StoreStack.get reg p = some s₁) :
    (StoreStack.addStoreAtPointer reg s₂ p false verbose).error = some .memoryAllocation
    ∧ (StoreStack.addStoreAtPointer reg s₂ p false verbose).stores = reg
    ∧ StoreStack.get (StoreStack.addStoreAtPointer reg s₂ p false verbose).stores p
        = some s₁
    ∧ (verbose = true → (StoreStack.addStoreAtPointer reg s₂ p false verbose).log ≠ [])
    ∧ (StoreStack.addStoreAtPointer reg s₂ p true verbose).error = none
    ∧ StoreStack.get (StoreStack.addStoreAtPointer reg s₂ p true verbose).stores p
        = some s₂ := by
  refine ⟨?_, ?_, ?_, ?_, ?_, ?_⟩ <;>
    simp [StoreStack.addStoreAtPointer, halloc, get_setPtr_same]

/-- Concrete instance of C5. -/
theorem C5_collision_policy_witness :
    (StoreStack.addStoreAtPointer [("p", Store.init (1 : Nat))] (Store.init 2) "p"
        false true).error = some .memoryAllocation
    ∧ StoreStack.get (StoreStack.addStoreAtPointer [("p", Store.init (1 : Nat))]
        (Store.init 2) "p" true false).stores "p" = some (Store.init 2) := by
  have h := C5_collision_policy [("p", Store.init (1 : Nat))] "p" (Store.init 1)
    (Store.init 2) true (by simp [StoreStack.get])
  have h' := C5_collision_policy [("p", Store.init (1 : Nat))] "p" (Store.init 1)
    (Store.init 2) false (by simp [StoreStack.get])
  exact ⟨h.1, h'.2.2.2.2.2⟩

/-! ## Claim C6 -/

/-- Claim C6: `upsert` on an allocated pointer leaves the existing
store's state untouched — the `defaultValue` is discarded; in particular
`upsert(0, p)` then `upsert(99, p)` leaves the store at `p` holding `0`. -/
theorem C6_upsert_preserves {σ : Type} (reg : StoreStack σ) (p : Pointer) (s : Store σ)
    (d : σ) (obs : List Observer) (halloc : StoreStack.get reg p = some s) :
    (∃ s', StoreStack.get (StoreStack.upsert reg d p obs).1 p = some s'
      ∧ s'.state = s.state)
    ∧ (StoreStack.get
        (StoreStack.upsert (StoreStack.upsert ([] : StoreStack Nat) 0 "p" []).1 99 "p" []).1
        "p").map Store.state = some 0 := by
  constructor
  · have hn : (StoreStack.get reg p).isNone = false := by simp [halloc]
    unfold StoreStack.upsert
    rw [hn]
    simp only [Bool.false_eq_true, if_false]
    exact attachAll_state obs reg p s halloc
  · rfl

/-- Concrete instance of C6. -/
theorem C6_upsert_preserves_witness :
    ∃ s', StoreStack.get
        (StoreStack.upsert [("p", Store.init (0 : Nat))] 99 "p" []).1 "p" = some s'
      ∧ s'.state = (Store.init (0 : Nat)).state :=
  (C6_upsert_preserves [("p", Store.init (0 : Nat))] "p" (Store.init 0) 99 []
    (by simp [StoreStack.get])).1

/-! ## Claim C7 -/

/-- Claim C7: `removeStore` on an allocated pointer deletes the entry, so
`get` then yields absent (`get` never throws: it totally returns an
optional value); a second `removeStore` on the now-unallocated pointer
fails with `NullPointerError` (logging first when `verbose`) and leaves
the registry unchanged. -/
theorem C7_remove_then_get {σ : Type} (reg : StoreStack σ) (p : Pointer) (s : Store σ)
    (vb vb₂ : Bool) (halloc : StoreStack.get reg p = some s) :
    (StoreStack.removeStore reg p vb).error = none
    ∧ StoreStack.get (StoreStack.removeStore reg p vb).stores p = none
    ∧ (StoreStack.removeStore (StoreStack.removeStore reg p vb).stores p vb₂).error
        = some .nullPointer
    ∧ (StoreStack.removeStore (StoreStack.removeStore reg p vb).stores p vb₂).stores
        = (StoreStack.removeStore reg p vb).stores
    ∧ (vb₂ = true →
        (StoreStack.removeStore (StoreStack.removeStore reg p vb).stores p vb₂).log ≠ []) := by
  have hn : (StoreStack.get reg p).isNone = false := by simp [halloc]
  have h1 : StoreStack.removeStore reg p vb
      = { log := [], stores := StoreStack.del reg p, error := none } := by
    unfold StoreStack.removeStore
    rw [hn]
    simp
  rw [h1]
  have h2 : StoreStack.get (StoreStack.del reg p) p = none := get_del_same reg p
  refine ⟨rfl, h2, ?_, ?_, ?_⟩ <;>
    simp [StoreStack.removeStore, h2]

/-- Concrete instance of C7. -/
theorem C7_remove_then_get_witness :
    StoreStack.get
        (StoreStack.removeStore [("p", Store.init (0 : Nat))] "p" false).stores "p" = none
    ∧ (StoreStack.removeStore
        (StoreStack.removeStore [("p", Store.init (0 : Nat))] "p" false).stores "p"
        true).error = some .nullPointer := by
  have h := C7_remove_then_get [("p", Store.init (0 : Nat))] "p" (Store.init 0) false true
    (by simp [StoreStack.get])
  exact ⟨h.2.1, h.2.2.1⟩

/-! ## Claim C8 -/

/-- With `stopOnError` false the attach loop of the `override` path never
lets an exception escape. -/
theorem attachLoop_no_stop {σ : Type} (vb : Bool) (os : List Observer) :
    ∀ s : Store σ, (attachLoop s vb false os).2.2 = none := by
  induction os with
  | nil =>
    intro s
    rfl
  | cons o os ih =>
    intro s
    by_cases hmem : o ∈ s.observers
    · simp [attachLoop, Store.attach, hmem, ih]
    · simp [attachLoop, Store.attach, hmem, ih]

/-- `useStore` computes its result pointer as the caller-supplied pointer
when present, else the generated one — identically in every branch. -/
theorem useStore_pointer {σ : Type} (state : σ) (opts : StoreOptions)
    (freshPtr : Pointer) (fid : Nat) (reg : StoreStack σ) :
    (useStore state (some opts) freshPtr fid reg).pointer = opts.pointer.getD freshPtr := by
  simp only [useStore]
  split
  · split <;> rfl
  · split
    · split <;> rfl
    · rfl

/-- With default error handling (`stopOnError` absent or false) no
exception escapes `useStore`. -/
theorem useStore_error_swallow {σ : Type} (state : σ) (opts : StoreOptions)
    (freshPtr : Pointer) (fid : Nat) (reg : StoreStack σ)
    (hsoe : (opts.errorHandling.map fun eh => eh.stopOnError.getD false).getD false
      = false) :
    (useStore state (some opts) freshPtr fid reg).error = none := by
  simp only [useStore, hsoe]
  split
  · rw [attachLoop_no_stop]
  · split
    · rfl
    · rfl

/-- Counterexample to claim C8 as stated: `useStore` with a
caller-supplied pointer does not return a pointer unconditionally — with
`errorHandling.stopOnError` set, a `DuplicateObserverError` arising while
`upsert` attaches a caller-supplied observer that is already attached to
the existing store is rethrown, so the call terminates by throwing
(modeled by the `error` component) instead of returning.  The first call
attaches observer `⟨7, false⟩` at `"fixed"`; the second call supplies
the same observer instance again with `stopOnError := true`. -/
theorem C8_pointer_stability_counterexample :
    (useStore 1
      (some { pointer := some "fixed", observers := some [⟨7, false⟩], override := none,
              errorHandling := some { verbose := none, stopOnError := some true } })
      "u2" 2
      (useStore (0 : Nat)
        (some { pointer := some "fixed", observers := some [⟨7, false⟩], override := none,
                errorHandling := none })
        "u1" 1 []).stores).error = some StoreError.duplicateObserver := by
  rfl

/-- Claim C8, amended: `useStore` with a caller-supplied pointer resolves
its result pointer to exactly that pointer in every branch, and whenever
nothing is rethrown — in particular always under the default error
handling (`stopOnError` absent or false) — the call returns it.  The
pointer-stability scenario holds: `useStore(0, {pointer: "fixed"})`
returns `"fixed"`, a second `useStore(1, {pointer: "fixed"})` (no
override) also returns `"fixed"`, and the stored value at `"fixed"`
remains `0`. -/
theorem C8_pointer_stability_amended {σ : Type} (state : σ) (opts : StoreOptions)
    (p freshPtr : Pointer) (fid : Nat) (reg : StoreStack σ)
    (hp : opts.pointer = some p) :
    ((useStore state (some opts) freshPtr fid reg).pointer = p
      ∧ ((opts.errorHandling.map fun eh => eh.stopOnError.getD false).getD false = false →
          (useStore state (some opts) freshPtr fid reg).error = none))
    ∧ ((useStore (0 : Nat)
          (some { pointer := some "fixed", observers := none, override := none,
                  errorHandling := none }) "u1" 1 []).pointer = "fixed"
      ∧ (useStore 1
          (some { pointer := some "fixed", observers := none, override := none,
                  errorHandling := none }) "u2" 2
          (useStore (0 : Nat)
            (some { pointer := some "fixed", observers := none, override := none,
                    errorHandling := none }) "u1" 1 []).stores).pointer = "fixed"
      ∧ (StoreStack.get
          (useStore 1
            (some { pointer := some "fixed", observers := none, override := none,
                    errorHandling := none }) "u2" 2
            (useStore (0 : Nat)
              (some { pointer := some "fixed", observers := none, override := none,
                      errorHandling := none }) "u1" 1 []).stores).stores
          "fixed").map Store.state = some 0) := by
  refine ⟨⟨?_, ?_⟩, rfl, rfl, rfl⟩
  · rw [useStore_pointer, hp]
    rfl
  · intro hsoe
    exact useStore_error_swallow state opts freshPtr fid reg hsoe

/-- Concrete instance of the amended C8. -/
theorem C8_pointer_stability_amended_witness :
    (useStore (5 : Nat)
      (some { pointer := some "q", observers := none, override := none,
              errorHandling := none }) "gen" 3 []).pointer = "q" :=
  (C8_pointer_stability_amended (5 : Nat)
    { pointer := some "q", observers := none, override := none, errorHandling := none }
    "q" "gen" 3 [] rfl).1.1

/-! ## Claim C9 -/

/-- Claim C9: creating a store — through the constructor directly, or
through `upsert` on an unallocated pointer — stores the argument itself
as the internal state, with no deep clone at construction: the
constructor performs no allocation and keeps the very value, and the
upserted store holds the given default value itself.  Hence the caller's
reference aliases the internal state until the first `set`, which stores
a fresh clone (third conjunct: after `set(v)` the stored value lives
entirely in freshly allocated cells).  The final conjunct demonstrates
the aliasing concretely: a store is built over heap `[[0]]` with state
`ref 0`; after an external mutation of that object (heap `[[1]]`), the
view of the internal state — and a subsequent `state` read — show the
mutated object. -/
theorem C9_constructor_no_clone :
    (∀ (h : Heap) (v : Val), storeNew h v = (h, v))
    ∧ (∀ (σ : Type) (reg : StoreStack σ) (d : σ) (p : Pointer),
        StoreStack.get reg p = none →
        ∃ s, StoreStack.get (StoreStack.upsert reg d p []).1 p = some s ∧ s.state = d)
    ∧ (∀ (h : Heap) (v : Val), heapWF h → valOk v h.length →
        valOkR (setValue h v).2 h.length (setValue h v).1.length)
    ∧ (view [[Val.prim 0]] 1 (storeNew [[Val.prim 0]] (Val.ref 0)).2
          = Shape.node [Shape.prim 0]
      ∧ view [[Val.prim 1]] 1 (storeNew [[Val.prim 0]] (Val.ref 0)).2
          = Shape.node [Shape.prim 1]
      ∧ view (stateGet [[Val.prim 1]] (storeNew [[Val.prim 0]] (Val.ref 0)).2).1 2
            (stateGet [[Val.prim 1]] (storeNew [[Val.prim 0]] (Val.ref 0)).2).2
          = Shape.node [Shape.prim 1]) := by
  refine ⟨fun h v => rfl, ?_, ?_, rfl, rfl, rfl⟩
  · intro σ reg d p hnone
    have hn : (StoreStack.get reg p).isNone = true := by simp [hnone]
    unfold StoreStack.upsert
    rw [hn]
    simp only [if_true]
    exact ⟨Store.init d, get_setPtr_same reg p (Store.init d), rfl⟩
  · intro h v hwf hok
    exact (structuredClone_spec hwf hok).2.2.1

/-- Concrete instance of C9. -/
theorem C9_constructor_no_clone_witness :
    storeNew [[Val.prim 0]] (Val.ref 0) = ([[Val.prim 0]], Val.ref 0)
    ∧ (∃ s, StoreStack.get (StoreStack.upsert ([] : StoreStack Nat) 7 "p" []).1 "p"
        = some s ∧ s.state = 7)
    ∧ valOkR (setValue [[Val.prim 0]] (Val.ref 0)).2 1
        (setValue [[Val.prim 0]] (Val.ref 0)).1.length :=
  ⟨C9_constructor_no_clone.1 [[Val.prim 0]] (Val.ref 0),
   C9_constructor_no_clone.2.1 Nat [] 7 "p" rfl,
   C9_constructor_no_clone.2.2.1 [[Val.prim 0]] (Val.ref 0) (by decide) (by decide)⟩

/-! ## Claim C10 -/

/-- Claim C10: when the caller supplies an `observers` array in the
options, `useStore` works on that very array (the source aliases it and
calls `push` on it), appending exactly one synthesized `onChange`
observer: after the call the caller's array is its old content plus one
fresh observer, its length grown by one. -/
theorem C10_observers_array_mutated {σ : Type} (state : σ) (opts : StoreOptions)
    (arr : List Observer) (freshPtr : Pointer) (fid : Nat) (reg : StoreStack σ)
    (hobs : opts.observers = some arr) :
    (useStore state (some opts) freshPtr fid reg).observersAfter
        = arr ++ [{ id := fid, raises := false }]
    ∧ (useStore state (some opts) freshPtr fid reg).observersAfter.length
        = arr.length + 1 := by
  have h1 : (useStore state (some opts) freshPtr fid reg).observersAfter
      = arr ++ [{ id := fid, raises := false }] := by
    simp only [useStore, hobs]
    split
    · split <;> rfl
    · split
      · split <;> rfl
      · rfl
  exact ⟨h1, by rw [h1]; simp⟩

/-- Concrete instance of C10. -/
theorem C10_observers_array_mutated_witness :
    (useStore (0 : Nat)
      (some { pointer := some "p", observers := some [⟨4, false⟩], override := none,
              errorHandling := none }) "gen" 9 []).observersAfter
      = [⟨4, false⟩, ⟨9, false⟩] :=
  (C10_observers_array_mutated (0 : Nat)
    { pointer := some "p", observers := some [⟨4, false⟩], override := none,
      errorHandling := none }
    [⟨4, false⟩] "gen" 9 [] rfl).1

end FreshStoreSpec
